import Mathlib

/-!
# go-deploy: agent pipeline, response framing and liveness registry

A shallow embedding of `cmd/client/client.go` (the agent: `handleConn`,
`processTask`) and of `setClientOnlineStatus` from `cmd/server/server.go`.

Conventions of the embedding:

* a Go `string` holding text is a Lean `String`; a Go `[]byte` is a `List UInt8`;
  `nil` and empty slices are both `[]`;
* a Go `error` is `GoError` (its message), and a `(value, error)` result keeps the
  error in an `Option`;
* `helper.RunShellCmd` is a parameter: a function from the command line and the
  state of the host to the combined output, the error and the new host state;
* calls to `log` have no effect on any value of the program and are left out, and so
  are the write deadlines and the deferred `conn.Close()`;
* a connection is the sequence of pieces its socket reads deliver, the payloads
  written to it, and the number of writes the peer still accepts;
* library functions (`strings.TrimSpace`, `json.Unmarshal`, `bytes.Replace`,
  `bufio.Reader.ReadString`, `utf8.DecodeRune`) are embedded from their Go
  definitions, each next to the place it is used.
-/

set_option autoImplicit false

namespace GoDeploy

/-! ## Go basics -/

/-- One octet of a Go byte slice. -/
abbrev Byte := UInt8

/-- Go byte slices. -/
abbrev Bytes := List Byte

/-- Go error values met in the agent: an error identified by its message (errors.New,
the errors of the command runner) and the two error types of encoding/json. -/
inductive GoError where
  | text (msg : String)
  | jsonSyntax
  | jsonUnmarshalType
deriving DecidableEq

/-- Go conversion from a string to its bytes, that is its UTF-8 encoding. -/
def toBytes (s : String) : Bytes :=
  s.toList.flatMap String.utf8EncodeChar

/-- Go unicode.IsSpace: the Latin-1 spaces and the code points with the
White_Space property. -/
def isSpace (c : Char) : Bool :=
  let n := c.toNat
  n == 0x09 || n == 0x0A || n == 0x0B || n == 0x0C || n == 0x0D || n == 0x20 ||
  n == 0x85 || n == 0xA0 || n == 0x1680 || (0x2000 ≤ n && n ≤ 0x200A) ||
  n == 0x2028 || n == 0x2029 || n == 0x202F || n == 0x205F || n == 0x3000

/-- Go strings.TrimSpace on the characters of a string. -/
def trimSpaceChars (cs : List Char) : List Char :=
  ((cs.dropWhile isSpace).reverse.dropWhile isSpace).reverse

/-- Go strings.TrimSpace. -/
def TrimSpace (s : String) : String :=
  String.mk (trimSpaceChars s.toList)

/-! ## The shell runner -/

/-- Result of one call of helper.RunShellCmd: combined output and error. -/
structure RunResult where
  out : Bytes
  err : Option GoError
deriving DecidableEq

/-- The command execution primitive helper.RunShellCmd, over host states `σ`. -/
abbrev Runner (σ : Type) := String → σ → RunResult × σ

/-- Instrumented runner: behaves as `run` and appends each command line it is
called with to a call log. -/
def traced {σ : Type} (run : Runner σ) : Runner (σ × List String) :=
  fun cmd st => ((run cmd st.1).1, ((run cmd st.1).2, st.2 ++ [cmd]))

/-! ## The agent: message and execution pipeline (client.go) -/

/-- The struct Message of client.go. -/
structure Message where
  /-- The field Type of the source; the bare word is reserved in Lean. -/
  Type_ : String
  Path : String
  Action : String
  Reversion : String
  BeforDeploy : String
  AfterDeploy : String
deriving DecidableEq

/-- The zero value of Message, as allocated by processTask before decoding. -/
def Message.zero : Message := ⟨"", "", "", "", "", ""⟩

/-- The primary command line, client.go lines 121-134; the empty string when the
action is neither update nor rollback. -/
def buildCommand (msg : Message) : String :=
  if msg.Action = "update" then
    if msg.Type_ = "git" then
      "cd " ++ msg.Path ++ " && git pull"
    else
      "cd " ++ msg.Path ++ " && svn up"
  else if msg.Action = "rollback" then
    if msg.Type_ = "git" then
      "cd " ++ msg.Path ++ " && git reset --hard " ++ msg.Reversion
    else
      "cd " ++ msg.Path ++ " && svn up -r " ++ msg.Reversion
  else
    ""

/-! ## encoding/json, as far as json.Unmarshal into a Message goes

The library is modelled in two layers: the text of a JSON value is parsed into a
tree (the grammar accepted by the scanner of encoding/json), and the tree is stored
into the struct (the rules of the decoder for a struct whose fields are strings). -/

/-- JSON values. A number keeps its text. -/
inductive Json where
  | null : Json
  | bool (b : Bool) : Json
  | num (raw : String) : Json
  | str (s : String) : Json
  | arr (items : List Json) : Json
  | obj (members : List (String × Json)) : Json

/-- The four white space characters of JSON. -/
def isJsonSpace (c : Char) : Bool :=
  c == ' ' || c == '\t' || c == '\r' || c == '\n'

/-- Drops leading JSON white space. -/
def skipSpace (cs : List Char) : List Char :=
  cs.dropWhile isJsonSpace

/-- Value of a hexadecimal digit. -/
def hexVal (c : Char) : Option Nat :=
  let n := c.toNat
  if 48 ≤ n ∧ n ≤ 57 then some (n - 48)
  else if 97 ≤ n ∧ n ≤ 102 then some (n - 87)
  else if 65 ≤ n ∧ n ≤ 70 then some (n - 55)
  else none

/-- The function getu4 of encoding/json: the number written by a leading
backslash-u escape and the text after it. -/
def getu4 (cs : List Char) : Option (Nat × List Char) :=
  match cs with
  | '\\' :: 'u' :: a :: b :: c :: d :: rest =>
    match hexVal a, hexVal b, hexVal c, hexVal d with
    | some a, some b, some c, some d => some (((a * 16 + b) * 16 + c) * 16 + d, rest)
    | _, _, _, _ => none
  | _ => none

/-- The character a one-letter escape stands for. -/
def simpleEscape (c : Char) : Option Char :=
  if c = '"' then some '"'
  else if c = '\\' then some '\\'
  else if c = '/' then some '/'
  else if c = 'b' then some (Char.ofNat 8)
  else if c = 'f' then some (Char.ofNat 12)
  else if c = 'n' then some '\n'
  else if c = 'r' then some '\r'
  else if c = 't' then some '\t'
  else none

/-- The replacement character U+FFFD. -/
def runeError : Char := Char.ofNat 0xFFFD

/-- Reads a string literal after its opening quote: the unquoted text and the input
after the closing quote. Control characters and unknown escapes are syntax errors; a
surrogate escape not followed by its partner becomes U+FFFD. -/
def parseStringBody : Nat → List Char → List Char → Option (String × List Char)
  | 0, _, _ => none
  | _ + 1, [], _ => none
  | fuel + 1, c :: rest, acc =>
    if c = '"' then some (String.mk acc, rest)
    else if c = '\\' then
      match rest with
      | [] => none
      | e :: rest1 =>
        if e = 'u' then
          match getu4 (c :: rest) with
          | none => none
          | some (rr, rest2) =>
            if 0xD800 ≤ rr ∧ rr < 0xE000 then
              match getu4 rest2 with
              | some (rr1, rest3) =>
                if rr < 0xDC00 ∧ 0xDC00 ≤ rr1 ∧ rr1 < 0xE000 then
                  parseStringBody fuel rest3
                    (acc ++ [Char.ofNat ((rr - 0xD800) * 1024 + (rr1 - 0xDC00) + 0x10000)])
                else parseStringBody fuel rest2 (acc ++ [runeError])
              | none => parseStringBody fuel rest2 (acc ++ [runeError])
            else parseStringBody fuel rest2 (acc ++ [Char.ofNat rr])
        else
          match simpleEscape e with
          | some ch => parseStringBody fuel rest1 (acc ++ [ch])
          | none => none
    else if c.toNat < 0x20 then none
    else parseStringBody fuel rest (acc ++ [c])

/-- Optional exponent of a number. -/
def parseExponent (acc cs : List Char) : Option (List Char × List Char) :=
  match cs with
  | e :: t =>
    if e = 'e' ∨ e = 'E' then
      let sign := match t with
        | s :: _ => if s = '+' ∨ s = '-' then [s] else []
        | [] => []
      let t1 := t.drop sign.length
      let ds := t1.takeWhile Char.isDigit
      if ds = [] then none else some (acc ++ e :: sign ++ ds, t1.dropWhile Char.isDigit)
    else some (acc, cs)
  | [] => some (acc, cs)

/-- Optional fraction of a number, then its exponent. -/
def parseFraction (acc cs : List Char) : Option (List Char × List Char) :=
  match cs with
  | '.' :: t =>
    let ds := t.takeWhile Char.isDigit
    if ds = [] then none else parseExponent (acc ++ '.' :: ds) (t.dropWhile Char.isDigit)
  | _ => parseExponent acc cs

/-- Reads a JSON number: its text and the input after it. -/
def parseNumber (cs : List Char) : Option (List Char × List Char) :=
  let sign := match cs with
    | '-' :: _ => ['-']
    | _ => []
  match cs.drop sign.length with
  | [] => none
  | d :: t =>
    if d = '0' then parseFraction (sign ++ ['0']) t
    else if d.isDigit then
      parseFraction (sign ++ d :: t.takeWhile Char.isDigit) (t.dropWhile Char.isDigit)
    else none

/-- The nesting limit of the scanner. -/
def maxNestingDepth : Nat := 10000

mutual
/-- Reads one JSON value after optional white space. -/
def parseValue : Nat → Nat → List Char → Option (Json × List Char)
  | 0, _, _ => none
  | fuel + 1, depth, cs =>
    match skipSpace cs with
    | [] => none
    | c :: rest =>
      if c = '{' then
        if depth + 1 > maxNestingDepth then none
        else
          match skipSpace rest with
          | '}' :: rest1 => some (Json.obj [], rest1)
          | rest1 => parseMembers fuel (depth + 1) rest1 []
      else if c = '[' then
        if depth + 1 > maxNestingDepth then none
        else
          match skipSpace rest with
          | ']' :: rest1 => some (Json.arr [], rest1)
          | rest1 => parseElements fuel (depth + 1) rest1 []
      else if c = '"' then
        match parseStringBody rest.length rest [] with
        | some (s, rest1) => some (Json.str s, rest1)
        | none => none
      else if c = 't' then
        match rest with
        | 'r' :: 'u' :: 'e' :: rest1 => some (Json.bool true, rest1)
        | _ => none
      else if c = 'f' then
        match rest with
        | 'a' :: 'l' :: 's' :: 'e' :: rest1 => some (Json.bool false, rest1)
        | _ => none
      else if c = 'n' then
        match rest with
        | 'u' :: 'l' :: 'l' :: rest1 => some (Json.null, rest1)
        | _ => none
      else
        match parseNumber (c :: rest) with
        | some (raw, rest1) => some (Json.num (String.mk raw), rest1)
        | none => none
/-- Reads the members of an object, the input standing at a key. -/
def parseMembers : Nat → Nat → List Char → List (String × Json) → Option (Json × List Char)
  | 0, _, _, _ => none
  | fuel + 1, depth, cs, acc =>
    match cs with
    | '"' :: rest =>
      match parseStringBody rest.length rest [] with
      | none => none
      | some (key, rest1) =>
        match skipSpace rest1 with
        | ':' :: rest2 =>
          match parseValue fuel depth rest2 with
          | none => none
          | some (v, rest3) =>
            match skipSpace rest3 with
            | ',' :: rest4 => parseMembers fuel depth (skipSpace rest4) (acc ++ [(key, v)])
            | '}' :: rest4 => some (Json.obj (acc ++ [(key, v)]), rest4)
            | _ => none
        | _ => none
    | _ => none
/-- Reads the elements of an array, the input standing at an element. -/
def parseElements : Nat → Nat → List Char → List Json → Option (Json × List Char)
  | 0, _, _, _ => none
  | fuel + 1, depth, cs, acc =>
    match parseValue fuel depth cs with
    | none => none
    | some (v, rest) =>
      match skipSpace rest with
      | ',' :: rest1 => parseElements fuel depth rest1 (acc ++ [v])
      | ']' :: rest1 => some (Json.arr (acc ++ [v]), rest1)
      | _ => none
end

/-- The whole text as one JSON value, white space allowed around it; `none` is a
syntax error. Between two calls of the value reader at least one character is
consumed, and at most one call of a member or element reader lies between them, so
twice the length of the text bounds the depth of the calls. -/
def parseJson (text : String) : Option Json :=
  match parseValue (2 * text.length + 2) 0 text.toList with
  | some (v, rest) => if skipSpace rest = [] then some v else none
  | none => none

/-- The fields of Message, all of Go type string. -/
inductive Field where
  | type | path | action | reversion | beforDeploy | afterDeploy
deriving DecidableEq

/-- The json tags of the struct, in field order (client.go lines 24-29). -/
def fieldTags : List (String × Field) :=
  [("type", Field.type), ("path", Field.path), ("action", Field.action),
   ("reversion", Field.reversion), ("befor_deploy", Field.beforDeploy),
   ("after_deploy", Field.afterDeploy)]

/-- Case folding of a key character as far as it can meet an ASCII tag: ASCII upper
case to lower case, and the two other characters whose simple folding is an ASCII
letter, U+017F (long s) and U+212A (Kelvin sign). -/
def foldChar (c : Char) : Char :=
  if c.toNat = 0x17F then 's'
  else if c.toNat = 0x212A then 'k'
  else c.toLower

/-- The key of an object member, folded. -/
def foldKey (key : String) : List Char :=
  key.toList.map foldChar

/-- The field an object key is stored into: the field whose tag is the key, else
the first field whose tag equals the key up to case folding, else none. -/
def lookupField (key : String) : Option Field :=
  match fieldTags.find? (fun t => t.1 = key) with
  | some t => some t.2
  | none =>
    match fieldTags.find? (fun t => foldKey t.1 = foldKey key) with
    | some t => some t.2
    | none => none

/-- Assignment to a field of the struct. -/
def Message.set (msg : Message) (f : Field) (v : String) : Message :=
  match f with
  | Field.type => { msg with Type_ := v }
  | Field.path => { msg with Path := v }
  | Field.action => { msg with Action := v }
  | Field.reversion => { msg with Reversion := v }
  | Field.beforDeploy => { msg with BeforDeploy := v }
  | Field.afterDeploy => { msg with AfterDeploy := v }

/-- Reads a field of the struct. -/
def Message.get (msg : Message) (f : Field) : String :=
  match f with
  | Field.type => msg.Type_
  | Field.path => msg.Path
  | Field.action => msg.Action
  | Field.reversion => msg.Reversion
  | Field.beforDeploy => msg.BeforDeploy
  | Field.afterDeploy => msg.AfterDeploy

/-- Stores one object member: a key that names no field is skipped; a string is
assigned; null leaves the field as it is; any other value records a type error (the
first one is kept) and decoding goes on. -/
def storeMember (acc : Message × Option GoError) (member : String × Json) :
    Message × Option GoError :=
  match lookupField member.1 with
  | none => acc
  | some f =>
    match member.2 with
    | Json.str s => (acc.1.set f s, acc.2)
    | Json.null => acc
    | _ => (acc.1, acc.2.orElse (fun _ => some GoError.jsonUnmarshalType))

/-- Stores a JSON value into a Message: an object member by member, null without
effect, anything else is a type error. -/
def storeValue (msg : Message) (v : Json) : Message × Option GoError :=
  match v with
  | Json.obj members => members.foldl storeMember (msg, none)
  | Json.null => (msg, none)
  | _ => (msg, some GoError.jsonUnmarshalType)

/-- The call json.Unmarshal(data, msg) on a zero Message: the struct after the call
and the error returned. -/
def jsonUnmarshal (data : String) : Message × Option GoError :=
  match parseJson data with
  | none => (Message.zero, some GoError.jsonSyntax)
  | some v => storeValue Message.zero v

/-- The error built by errors.New at the end of processTask. -/
def errCommandInvalid : GoError := GoError.text "command invalid"

/-- The tail of the pipeline, client.go lines 149-165: the primary command, then the
after hook; `bytes` is the output accumulated so far. -/
def runCommandAndAfter {σ : Type} (run : Runner σ) (msg : Message) (command : String)
    (bytes : Bytes) (st : σ) : RunResult × σ :=
  -- exec command
  let r := run command st
  let bytes := bytes ++ r.1.out
  match r.1.err with
  | some err => (⟨bytes, some err⟩, r.2)
  | none =>
    -- exec post script
    if TrimSpace msg.AfterDeploy ≠ "" then
      let r2 := run msg.AfterDeploy r.2
      let bytes := bytes ++ r2.1.out
      match r2.1.err with
      | some err => (⟨bytes, some err⟩, r2.2)
      | none => (⟨bytes, none⟩, r2.2)
    else
      (⟨bytes, none⟩, r.2)

/-- The part of processTask after a successful decode, client.go lines 121-167. -/
def processMessage {σ : Type} (run : Runner σ) (msg : Message) (st : σ) : RunResult × σ :=
  let command := buildCommand msg
  if command ≠ "" then
    let bytes : Bytes := []
    -- exec pre script
    if TrimSpace msg.BeforDeploy ≠ "" then
      let r := run msg.BeforDeploy st
      let bytes := bytes ++ r.1.out
      match r.1.err with
      | some err => (⟨bytes, some err⟩, r.2)
      | none => runCommandAndAfter run msg command bytes r.2
    else
      runCommandAndAfter run msg command bytes st
  else
    (⟨[], some errCommandInvalid⟩, st)

/-- The function processTask of client.go: decode the line, then run the pipeline. -/
def processTask {σ : Type} (run : Runner σ) (message : String) (st : σ) : RunResult × σ :=
  let dec := jsonUnmarshal message
  match dec.2 with
  | some err => (⟨[], some err⟩, st)
  | none => processMessage run dec.1 st

/-! ## Response framing and the connection handler (client.go, handleConn) -/

/-- The scan of bytes.Replace for a non-empty `old` and n = -1: leftmost occurrences
that do not overlap are replaced; `skip` counts the bytes of a matched occurrence
still to pass over. -/
def replaceFrom (old new : Bytes) : Nat → Bytes → Bytes
  | _, [] => []
  | skip + 1, _ :: t => replaceFrom old new skip t
  | 0, b :: t =>
    if old.isPrefixOf (b :: t) then new ++ replaceFrom old new (old.length - 1) t
    else b :: replaceFrom old new 0 t

/-- The call bytes.Replace(s, old, new, -1) for a non-empty `old`, the only use made
of it here. (With an empty `old` Go inserts `new` around every rune; that case is
outside this model, which then returns a copy of `s`.) -/
def bytesReplace (s old new : Bytes) : Bytes :=
  if old = [] then s else replaceFrom old new 0 s

/-- The newline byte. -/
def newline : Byte := 10

/-- The six bytes of the token that stands for a newline in a response. -/
def crlfToken : Bytes := toBytes "{CRLF}"

/-- The response frame of a command, client.go lines 98-100. -/
def responseFrame (ret : Bytes) : Bytes :=
  let ret := bytesReplace ret [10] crlfToken
  ret ++ [10]

/-- One TCP connection seen from the agent: the data still to arrive, cut the way the
successive socket reads deliver it (end of stream after the last piece); the payloads
of the writes that succeeded, oldest first; the number of writes that will still
succeed before the peer is gone. A failing write transmits nothing. -/
structure Conn where
  incoming : List Bytes
  written : List Bytes
  writable : Nat
deriving DecidableEq

/-- The call conn.Write(p): the connection after it and whether it succeeded. -/
def Conn.write (c : Conn) (p : Bytes) : Conn × Bool :=
  match c.writable with
  | 0 => (c, false)
  | n + 1 => ({ c with written := c.written ++ [p], writable := n }, true)

/-- The call conn.Read(buf) with len(buf) = cap: the bytes read (`none` at end of
stream) and the connection after it. A read waits for data, so empty pieces are
passed over. -/
def Conn.read (c : Conn) (cap : Nat) : Option Bytes × Conn :=
  match c.incoming.dropWhile (fun seg => seg.isEmpty) with
  | [] => (none, { c with incoming := [] })
  | seg :: rest =>
    if seg.length ≤ cap then (some seg, { c with incoming := rest })
    else (some (seg.take cap), { c with incoming := seg.drop cap :: rest })

/-- The default buffer size of bufio.NewReader. -/
def defaultBufSize : Nat := 4096

/-- The loop of ReadString (collectFragments over ReadSlice) of a bufio.Reader: `frags`
holds the full buffers set aside, `buf` the unread content of the buffer. On a
delimiter the line up to and including it is returned and what the buffer holds after
it stays in the reader; at end of stream the result is an error (`none`). -/
def readStringLoop (delim : Byte) : Nat → Bytes → Bytes → Conn → Option Bytes × Conn
  | 0, _, _, c => (none, c)
  | fuel + 1, frags, buf, c =>
    match buf.indexOf? delim with
    | some i => (some (frags ++ buf.take (i + 1)), c)
    | none =>
      if buf.length ≥ defaultBufSize then readStringLoop delim fuel (frags ++ buf) [] c
      else
        match c.read (defaultBufSize - buf.length) with
        | (none, c1) => (none, c1)
        | (some data, c1) => readStringLoop delim fuel frags (buf ++ data) c1

/-- Number of bytes still to arrive on a connection. -/
def Conn.pending (c : Conn) : Nat :=
  (c.incoming.map List.length).sum

/-- The expression bufio.NewReader(conn).ReadString(delim) of client.go line 72: a
new reader is made for this one call, and is dropped after it together with the bytes
it has buffered beyond the line. Each turn of the loop reads at least one byte or
sets a full buffer aside, which bounds the turns. -/
def readStringFresh (delim : Byte) (c : Conn) : Option Bytes × Conn :=
  readStringLoop delim (2 * c.pending + 2) [] [] c

/-- The function utf8.DecodeRune on a non-empty input: the rune and its width; an
encoding error gives U+FFFD and width 1. -/
def decodeRune (p : Bytes) : Char × Nat :=
  match p.map UInt8.toNat with
  | [] => (runeError, 0)
  | p0 :: rest =>
    if p0 < 0x80 then (Char.ofNat p0, 1)
    else if p0 < 0xC2 ∨ 0xF4 < p0 then (runeError, 1)
    else
      let lo := if p0 = 0xE0 then 0xA0 else if p0 = 0xF0 then 0x90 else 0x80
      let hi := if p0 = 0xED then 0x9F else if p0 = 0xF4 then 0x8F else 0xBF
      match rest with
      | [] => (runeError, 1)
      | b1 :: rest1 =>
        if b1 < lo ∨ hi < b1 then (runeError, 1)
        else if p0 < 0xE0 then (Char.ofNat ((p0 % 32) * 64 + b1 % 64), 2)
        else
          match rest1 with
          | [] => (runeError, 1)
          | b2 :: rest2 =>
            if b2 < 0x80 ∨ 0xBF < b2 then (runeError, 1)
            else if p0 < 0xF0 then
              (Char.ofNat (((p0 % 16) * 64 + b1 % 64) * 64 + b2 % 64), 3)
            else
              match rest2 with
              | [] => (runeError, 1)
              | b3 :: _ =>
                if b3 < 0x80 ∨ 0xBF < b3 then (runeError, 1)
                else
                  (Char.ofNat ((((p0 % 8) * 64 + b1 % 64) * 64 + b2 % 64) * 64 + b3 % 64), 4)

/-- The runes of a byte string, as a Go range loop yields them; `skip` counts the
bytes of the current rune still to pass over. -/
def decodeRunes : Nat → Bytes → List Char
  | _, [] => []
  | skip + 1, _ :: t => decodeRunes skip t
  | 0, b :: t => (decodeRune (b :: t)).1 :: decodeRunes ((decodeRune (b :: t)).2 - 1) t

/-- The text of a Go string given by its bytes. Bytes that are not UTF-8 read as
U+FFFD, which is how strings.TrimSpace and encoding/json treat them. -/
def goString (b : Bytes) : String :=
  String.mk (decodeRunes 0 b)

/-- One turn of the loop of handleConn after a successful read, client.go lines
82-107: the connection and host state after it, and whether the loop goes on. -/
def handleMessage {σ : Type} (run : Runner σ) (message : String) (c : Conn) (st : σ) :
    Conn × σ × Bool :=
  if TrimSpace message = "PING" then
    let message := "PONG"
    -- send new string back to client
    let w := c.write (toBytes (message ++ "\n"))
    (w.1, st, w.2)
  else
    let r := processTask run message st
    -- replace \n with special chars
    let ret := bytesReplace r.1.out [10] (toBytes "{CRLF}")
    let ret := ret ++ [10]
    let w := c.write ret
    (w.1, r.2, w.2)

/-- The loop of handleConn, client.go lines 70-108. -/
def handleConnLoop {σ : Type} (run : Runner σ) : Nat → Conn → σ → Conn × σ
  | 0, c, st => (c, st)
  | fuel + 1, c, st =>
    -- will listen for message to process ending in newline (\n)
    match readStringFresh 10 c with
    | (none, c1) => (c1, st)
    | (some line, c1) =>
      let h := handleMessage run (goString line) c1 st
      if h.2.2 then handleConnLoop run fuel h.1 h.2.1 else (h.1, h.2.1)

/-- The function handleConn of client.go. Every turn of the loop takes at least one
byte from the connection, so the loop ends. -/
def handleConn {σ : Type} (run : Runner σ) (c : Conn) (st : σ) : Conn × σ :=
  handleConnLoop run (c.pending + 1) c st

/-! ## The liveness registry (server.go, setClientOnlineStatus) -/

/-- Modelled from the spec: the node record of the configuration package, which is
not among the sources: an address and the last known liveness. -/
structure Node where
  Addr : String
  Online : Bool
deriving DecidableEq

/-- Modelled from the spec: the application record of the configuration package,
which is not among the sources: VCS type, path and the ordered nodes. -/
structure App where
  Type_ : String
  Path : String
  Node : List Node
deriving DecidableEq

/-- Modelled from the spec: the table config.C.Apps, which is not among the sources:
a mapping from application name to application, kept as the list of its entries. -/
abbrev Apps := List (String × App)

/-- The inner loop of setClientOnlineStatus, server.go lines 132-136. -/
def setNodesOnline (addr : String) (online : Bool) : List Node → List Node
  | [] => []
  | node :: rest =>
    if node.Addr = addr then
      { node with Online := online } :: setNodesOnline addr online rest
    else
      node :: setNodesOnline addr online rest

/-- The function setClientOnlineStatus of server.go on the table of applications. -/
def setClientOnlineStatus (addr : String) (online : Bool) : Apps → Apps
  | [] => []
  | (key, app) :: rest =>
    (key, { app with Node := setNodesOnline addr online app.Node }) ::
      setClientOnlineStatus addr online rest

/-! ## The specification side: stage list, fail-fast fold, escaping -/

/-- The string that stands under a key of a JSON object: the value of the first
member with that key, if it is a string. -/
def Json.stringUnder (key : String) : Json → Option String
  | Json.obj members =>
    match members.find? (fun m => m.1 = key) with
    | some (_, Json.str s) => some s
    | _ => none
  | _ => none

/-- The stages of the pipeline in order: the before hook if it is not blank, the
primary command, the after hook if it is not blank. -/
def stageList (msg : Message) : List String :=
  (if TrimSpace msg.BeforDeploy ≠ "" then [msg.BeforDeploy] else []) ++
  [buildCommand msg] ++
  (if TrimSpace msg.AfterDeploy ≠ "" then [msg.AfterDeploy] else [])

/-- Fail-fast fold over a list of stages: each stage runs in turn and its output is
appended to `acc`; the first failing stage ends the fold with its error. -/
def failFast {σ : Type} (run : Runner σ) : List String → Bytes → σ → RunResult × σ
  | [], acc, st => (⟨acc, none⟩, st)
  | cmd :: rest, acc, st =>
    match (run cmd st).1.err with
    | some e => (⟨acc ++ (run cmd st).1.out, some e⟩, (run cmd st).2)
    | none => failFast run rest (acc ++ (run cmd st).1.out) (run cmd st).2

/-- The escaped form of an output as the specification words it: every newline byte
gives way to the token, every other byte stays. -/
def escapeNewlines (ret : Bytes) : Bytes :=
  ret.flatMap (fun b => if b = 10 then crlfToken else [b])

/-! ## Sample inputs -/

/-- A command runner for examples: a command prints its own text between angle
brackets on a line, and the command `false` fails. The host has no state. -/
def echoRun : Runner Unit := fun cmd st =>
  (⟨toBytes ("<" ++ cmd ++ ">\n"),
    if cmd = "false" then some (GoError.text "exit status 1") else none⟩, st)

/-- The request line
`{"type":"git","path":"/srv/app","action":"update","befor_deploy":"false","after_deploy":"echo done"}`,
whose before hook fails under echoRun. -/
def lineFailingHook : String :=
  "\x7b\"type\":\"git\",\"path\":\"/srv/app\",\"action\":\"update\"," ++
  "\"befor_deploy\":\"false\",\"after_deploy\":\"echo done\"\x7d"

/-- The request line
`{"type":"git","path":"/srv/app","action":"update","befor_deploy":"echo pre","after_deploy":"echo done"}`
with both hooks. -/
def lineBothHooks : String :=
  "\x7b\"type\":\"git\",\"path\":\"/srv/app\",\"action\":\"update\"," ++
  "\"befor_deploy\":\"echo pre\",\"after_deploy\":\"echo done\"\x7d"

/-- The request line `{"type":"svn","action":"noop","path":"/srv/app","befor_deploy":"echo pre"}`
with an unknown action. -/
def lineUnknownAction : String :=
  "\x7b\"type\":\"svn\",\"action\":\"noop\",\"path\":\"/srv/app\"," ++
  "\"befor_deploy\":\"echo pre\"\x7d"

/-- A runner for examples on which hooks succeed and the version control commands,
which start with `cd`, fail. -/
def vcsDownRun : Runner Unit := fun cmd st =>
  (⟨toBytes ("<" ++ cmd ++ ">\n"),
    if "cd ".toList.isPrefixOf cmd.toList then some (GoError.text "exit status 128")
    else none⟩, st)

/-- The request line
`{"type":"git","action":"update","path":"/srv/app","before_deploy":"echo pre","after_deploy":"echo done"}`
whose before hook stands under the key as the specification spells it. -/
def lineSpecKey : String :=
  "\x7b\"type\":\"git\",\"action\":\"update\",\"path\":\"/srv/app\"," ++
  "\"before_deploy\":\"echo pre\",\"after_deploy\":\"echo done\"\x7d"

/-- The members of the object written by lineBothHooks. -/
def membersBothHooks : List (String × Json) :=
  [("type", Json.str "git"), ("path", Json.str "/srv/app"), ("action", Json.str "update"),
   ("befor_deploy", Json.str "echo pre"), ("after_deploy", Json.str "echo done")]

/-- A table of two applications that share the node address 10.0.0.1:8081. -/
def sampleApps : Apps :=
  [("web", ⟨"git", "/srv/web", [⟨"10.0.0.1:8081", false⟩, ⟨"10.0.0.2:8081", false⟩]⟩),
   ("api", ⟨"svn", "/srv/api", [⟨"10.0.0.1:8081", false⟩]⟩)]

/-! ## Theorems: the execution pipeline -/

theorem buildCommand_ne_empty (msg : Message)
    (hact : msg.Action = "update" ∨ msg.Action = "rollback") : buildCommand msg ≠ "" := by
  have h0 : ∀ p : String, "cd " ++ p ≠ "" := fun p => by
    intro h
    have := congrArg String.length h
    simp at this
    exact absurd this.1 (by decide)
  unfold buildCommand
  split_ifs <;> first
    | (simp only [String.append_assoc]; exact h0 _)
    | (rcases hact with h | h <;> contradiction)

theorem buildCommand_eq_empty (msg : Message)
    (h1 : msg.Action ≠ "update") (h2 : msg.Action ≠ "rollback") : buildCommand msg = "" := by
  simp [buildCommand, h1, h2]

theorem processTask_of_decoded {σ : Type} (run : Runner σ) (message : String) (msg : Message)
    (st : σ) (hdec : jsonUnmarshal message = (msg, none)) :
    processTask run message st = processMessage run msg st := by
  simp [processTask, hdec]

theorem processMessage_eq_failFast {σ : Type} (run : Runner σ) (msg : Message) (st : σ)
    (hact : msg.Action = "update" ∨ msg.Action = "rollback") :
    processMessage run msg st = failFast run (stageList msg) [] st := by
  have hne := buildCommand_ne_empty msg hact
  unfold processMessage stageList
  simp only [hne, ne_eq, not_false_eq_true, if_true]
  by_cases hb : TrimSpace msg.BeforDeploy = "" <;> by_cases ha : TrimSpace msg.AfterDeploy = ""
  all_goals simp only [hb, ha, if_true, if_false, not_true_eq_false, not_false_eq_true,
    List.nil_append, List.append_nil, List.cons_append, List.singleton_append, failFast,
    runCommandAndAfter]
  all_goals (repeat' split) <;> simp_all

/-- The call log of a fail-fast fold under the instrumented runner extends the log it
started with by a prefix of the stage list. -/
theorem failFast_traced_log {σ : Type} (run : Runner σ) (stages : List String) :
    ∀ (acc : Bytes) (st : σ) (log : List String),
      ∃ ran, ran <+: stages ∧
        (failFast (traced run) stages acc (st, log)).2.2 = log ++ ran := by
  induction stages with
  | nil => intro acc st log; exact ⟨[], List.prefix_refl _, by simp [failFast]⟩
  | cons cmd rest ih =>
    intro acc st log
    unfold failFast
    cases h : ((traced run) cmd (st, log)).1.err with
    | some e =>
      refine ⟨[cmd], ?_, ?_⟩
      · simp [List.prefix_iff_eq_take]
      · simp [traced]
    | none =>
      obtain ⟨ran, hran, hlog⟩ := ih (acc ++ ((traced run) cmd (st, log)).1.out)
        (run cmd st).2 (log ++ [cmd])
      refine ⟨cmd :: ran, ?_, ?_⟩
      · exact (List.prefix_cons_inj cmd).mpr hran
      · simp only [traced] at hlog ⊢
        simp [hlog]

/-- C1. For every message with action update or rollback whose before hook is not
blank, and any runner: if the runner fails on the before hook, the pipeline returns
that failure with exactly the output of the before hook, the host is in the state the
hook left it in, and the runner was called exactly once, on the hook. So does
processTask on every line that decodes to the message. -/
theorem processTask_before_hook_failure {σ : Type} (run : Runner σ) (msg : Message)
    (st : σ) (e : GoError)
    (hact : msg.Action = "update" ∨ msg.Action = "rollback")
    (hhook : TrimSpace msg.BeforDeploy ≠ "")
    (hfail : (run msg.BeforDeploy st).1.err = some e) :
    processMessage (traced run) msg (st, []) =
      (⟨(run msg.BeforDeploy st).1.out, some e⟩,
        ((run msg.BeforDeploy st).2, [msg.BeforDeploy])) ∧
    ∀ message : String, jsonUnmarshal message = (msg, none) →
      processTask (traced run) message (st, []) =
        (⟨(run msg.BeforDeploy st).1.out, some e⟩,
          ((run msg.BeforDeploy st).2, [msg.BeforDeploy])) := by
  have hne := buildCommand_ne_empty msg hact
  have h : processMessage (traced run) msg (st, []) =
      (⟨(run msg.BeforDeploy st).1.out, some e⟩,
        ((run msg.BeforDeploy st).2, [msg.BeforDeploy])) := by
    simp [processMessage, hne, hhook, traced, hfail]
  exact ⟨h, fun message hdec => by rw [processTask_of_decoded _ _ _ _ hdec, h]⟩

theorem processTask_before_hook_failure_witness :
    processTask (traced echoRun) lineFailingHook ((), []) =
      (⟨toBytes "<false>\n", some (GoError.text "exit status 1")⟩, ((), ["false"])) :=
  (processTask_before_hook_failure echoRun
    ⟨"git", "/srv/app", "update", "", "false", "echo done"⟩ () (GoError.text "exit status 1")
    (by decide) (by decide) (by decide)).2 lineFailingHook (by decide)

/-- C2. For every message with action update or rollback and any runner, the
pipeline is the fail-fast fold over the stage list (before hook if not blank, primary
command, after hook if not blank), starting from empty output: same output, same
error, same final host state; so is processTask on every line that decodes to the
message. Under the instrumented runner the commands called are a prefix of the stage
list, in order. In particular, when the before hook is not blank and succeeds and the
primary command then fails, the output is the output of the hook followed by that of
the primary command, the error is that of the primary command, and the calls are the
hook and the primary command only. -/
theorem processTask_eq_failFast {σ : Type} (run : Runner σ) (msg : Message) (st : σ)
    (hact : msg.Action = "update" ∨ msg.Action = "rollback") :
    processMessage run msg st = failFast run (stageList msg) [] st ∧
    (∀ message : String, jsonUnmarshal message = (msg, none) →
      processTask run message st = failFast run (stageList msg) [] st) ∧
    (processMessage (traced run) msg (st, [])).2.2 <+: stageList msg ∧
    (∀ e, TrimSpace msg.BeforDeploy ≠ "" →
      (run msg.BeforDeploy st).1.err = none →
      (run (buildCommand msg) (run msg.BeforDeploy st).2).1.err = some e →
      processMessage (traced run) msg (st, []) =
        (⟨(run msg.BeforDeploy st).1.out ++
            (run (buildCommand msg) (run msg.BeforDeploy st).2).1.out, some e⟩,
          ((run (buildCommand msg) (run msg.BeforDeploy st).2).2,
            [msg.BeforDeploy, buildCommand msg]))) := by
  refine ⟨processMessage_eq_failFast _ _ _ hact, ?_, ?_, ?_⟩
  · intro message hdec
    rw [processTask_of_decoded _ _ _ _ hdec, processMessage_eq_failFast _ _ _ hact]
  · rw [processMessage_eq_failFast _ _ _ hact]
    obtain ⟨ran, hran, hlog⟩ := failFast_traced_log run (stageList msg) [] st []
    rw [hlog]
    simpa using hran
  · intro e hhook hok hfail
    have hne := buildCommand_ne_empty msg hact
    simp [processMessage, runCommandAndAfter, hne, hhook, traced, hok, hfail]

theorem processTask_eq_failFast_witness :
    processMessage (traced vcsDownRun)
        ⟨"git", "/srv/app", "update", "", "echo pre", "echo done"⟩ ((), []) =
      (⟨toBytes "<echo pre>\n" ++ toBytes "<cd /srv/app && git pull>\n",
          some (GoError.text "exit status 128")⟩,
        ((), ["echo pre", "cd /srv/app && git pull"])) :=
  (processTask_eq_failFast vcsDownRun
    ⟨"git", "/srv/app", "update", "", "echo pre", "echo done"⟩ ()
    (by decide)).2.2.2 (GoError.text "exit status 128")
    (by decide) (by decide) (by decide)

/-- C3. For a message with type git or svn and action update or rollback, with path
P and reversion R, the primary command line is: git and update, cd P && git pull;
svn and update, cd P && svn up; git and rollback, cd P && git reset --hard R; svn and
rollback, cd P && svn up -r R. So for update two messages of the same type and path
build the same command whatever their reversion and hooks, and for rollback the
command ends with R. For a line decoding to such a message this command is a stage of
the pipeline of processTask. -/
theorem buildCommand_table (msg : Message)
    (htype : msg.Type_ = "git" ∨ msg.Type_ = "svn")
    (hact : msg.Action = "update" ∨ msg.Action = "rollback") :
    (msg.Type_ = "git" → msg.Action = "update" →
      buildCommand msg = "cd " ++ msg.Path ++ " && git pull") ∧
    (msg.Type_ = "svn" → msg.Action = "update" →
      buildCommand msg = "cd " ++ msg.Path ++ " && svn up") ∧
    (msg.Type_ = "git" → msg.Action = "rollback" →
      buildCommand msg = "cd " ++ msg.Path ++ " && git reset --hard " ++ msg.Reversion) ∧
    (msg.Type_ = "svn" → msg.Action = "rollback" →
      buildCommand msg = "cd " ++ msg.Path ++ " && svn up -r " ++ msg.Reversion) ∧
    (msg.Action = "update" → ∀ other : Message, other.Action = "update" →
      other.Type_ = msg.Type_ → other.Path = msg.Path →
      buildCommand other = buildCommand msg) ∧
    (msg.Action = "rollback" → ∃ front : String, buildCommand msg = front ++ msg.Reversion) ∧
    (∀ (σ : Type) (run : Runner σ) (message : String) (st : σ),
      jsonUnmarshal message = (msg, none) →
      buildCommand msg ∈ stageList msg ∧
      processTask run message st = failFast run (stageList msg) [] st) := by
  refine ⟨?_, ?_, ?_, ?_, ?_, ?_, ?_⟩
  · intro ht ha
    simp [buildCommand, ht, ha]
  · intro ht ha
    simp [buildCommand, ht, ha]
  · intro ht ha
    simp [buildCommand, ht, ha]
  · intro ht ha
    simp [buildCommand, ht, ha]
  · intro ha other hoa hot hop
    simp [buildCommand, ha, hoa, hot, hop]
  · intro ha
    rcases htype with ht | ht
    · exact ⟨"cd " ++ msg.Path ++ " && git reset --hard ", by simp [buildCommand, ht, ha]⟩
    · exact ⟨"cd " ++ msg.Path ++ " && svn up -r ", by simp [buildCommand, ht, ha]⟩
  · intro σ run message st hdec
    refine ⟨by simp [stageList], ?_⟩
    rw [processTask_of_decoded _ _ _ _ hdec, processMessage_eq_failFast _ _ _ hact]

theorem buildCommand_table_witness :
    buildCommand ⟨"svn", "/srv/app", "rollback", "999", "", ""⟩ =
      "cd /srv/app && svn up -r 999" :=
  (buildCommand_table ⟨"svn", "/srv/app", "rollback", "999", "", ""⟩
    (by decide) (by decide)).2.2.2.1 (by decide) (by decide)

/-- C4. For every message whose action is neither update nor rollback, whatever its
other fields, and any runner: the pipeline fails with the error of an invalid command
(its text is `command invalid`), returns empty output, leaves the host state as it
was and calls the runner zero times. So does processTask on every line that decodes
to the message. -/
theorem processTask_unknown_action {σ : Type} (run : Runner σ) (msg : Message) (st : σ)
    (hupdate : msg.Action ≠ "update") (hrollback : msg.Action ≠ "rollback") :
    processMessage (traced run) msg (st, []) =
      (⟨[], some (GoError.text "command invalid")⟩, (st, [])) ∧
    ∀ message : String, jsonUnmarshal message = (msg, none) →
      processTask (traced run) message (st, []) =
        (⟨[], some (GoError.text "command invalid")⟩, (st, [])) := by
  have h : processMessage (traced run) msg (st, []) =
      (⟨[], some (GoError.text "command invalid")⟩, (st, [])) := by
    simp [processMessage, buildCommand_eq_empty msg hupdate hrollback, errCommandInvalid]
  exact ⟨h, fun message hdec => by rw [processTask_of_decoded _ _ _ _ hdec, h]⟩

theorem processTask_unknown_action_witness :
    processTask (traced echoRun) lineUnknownAction ((), []) =
      (⟨[], some (GoError.text "command invalid")⟩, ((), [])) :=
  (processTask_unknown_action echoRun ⟨"svn", "/srv/app", "noop", "", "echo pre", ""⟩ ()
    (by decide) (by decide)).2 lineUnknownAction (by decide)

/-! ## Theorems: response framing -/

theorem crlfToken_eq : crlfToken = [123, 67, 82, 76, 70, 125] := by decide

theorem replaceFrom_newline (new : Bytes) (s : Bytes) :
    replaceFrom [10] new 0 s = s.flatMap (fun b => if b = 10 then new else [b]) := by
  induction s with
  | nil => rfl
  | cons b t ih =>
    by_cases hb : b = 10
    · subst hb
      simp [replaceFrom, List.isPrefixOf, ih]
    · have hb2 : ¬ (10 : Byte) = b := fun h => hb h.symm
      simp [replaceFrom, List.isPrefixOf, ih, hb, hb2]

theorem bytesReplace_newline (s : Bytes) :
    bytesReplace s [10] crlfToken = escapeNewlines s := by
  simp [bytesReplace, replaceFrom_newline, escapeNewlines]

theorem escapeNewlines_cons (b : Byte) (t : Bytes) :
    escapeNewlines (b :: t) = (if b = 10 then crlfToken else [b]) ++ escapeNewlines t := by
  simp [escapeNewlines]

theorem escapeNewlines_count (s : Bytes) : (escapeNewlines s).count 10 = 0 := by
  induction s with
  | nil => rfl
  | cons b t ih =>
    rw [escapeNewlines_cons, List.count_append, ih]
    by_cases hb : b = 10
    · simp [hb, crlfToken_eq]
    · have hb2 : ¬ (10 : Byte) = b := fun h => hb h.symm
      simp [hb, List.count_cons, hb2]

theorem escapeNewlines_length (s : Bytes) :
    (escapeNewlines s).length = s.length + 5 * s.count 10 := by
  induction s with
  | nil => rfl
  | cons b t ih =>
    rw [escapeNewlines_cons, List.length_append, ih]
    by_cases hb : b = 10
    · simp [hb, crlfToken_eq, List.count_cons]
      omega
    · simp [hb, List.count_cons]
      omega

theorem replaceFrom_skip (old new : Bytes) (l rest : Bytes) :
    replaceFrom old new l.length (l ++ rest) = replaceFrom old new 0 rest := by
  induction l with
  | nil => rfl
  | cons a l ih =>
    cases rest with
    | nil => simp [replaceFrom] at ih ⊢; simpa using ih
    | cons r rs => simpa [replaceFrom] using ih

/-- A run of bytes free of newlines and opening braces that starts an escaped output
starts the output itself. -/
theorem prefix_of_prefix_escape (p : Bytes) (hp : ∀ c ∈ p, c ≠ 10 ∧ c ≠ 123) :
    ∀ xs : Bytes, p <+: escapeNewlines xs → p <+: xs := by
  induction p with
  | nil => intro xs _; exact List.nil_prefix
  | cons c p ih =>
    intro xs h
    have hc := hp c (List.mem_cons_self _ _)
    cases xs with
    | nil => simp [escapeNewlines] at h
    | cons y ys =>
      rw [escapeNewlines_cons] at h
      by_cases hy : y = 10
      · simp only [hy, if_true, crlfToken_eq, List.cons_append] at h
        rw [List.cons_prefix_cons] at h
        exact absurd h.1 hc.2
      · simp only [hy, if_false, List.singleton_append] at h
        rw [List.cons_prefix_cons] at h ⊢
        exact ⟨h.1, ih (fun c hc => hp c (List.mem_cons_of_mem _ hc)) ys h.2⟩

theorem unescape_escape (x : Bytes) (hfree : ¬ crlfToken <:+: x) :
    bytesReplace (escapeNewlines x) crlfToken [10] = x := by
  have htok : crlfToken ≠ [] := by decide
  simp only [bytesReplace, htok, if_false]
  induction x with
  | nil => rfl
  | cons b t ih =>
    have ht : ¬ crlfToken <:+: t := fun h => hfree (List.IsInfix.trans h (List.infix_cons (List.infix_refl _)))
    rw [escapeNewlines_cons]
    by_cases hb : b = 10
    · simp only [hb, if_true]
      have h1 : crlfToken ++ escapeNewlines t = 123 :: ([67, 82, 76, 70, 125] ++ escapeNewlines t) := by
        simp [crlfToken_eq]
      rw [h1]
      unfold replaceFrom
      have h2 : crlfToken.isPrefixOf (123 :: ([67, 82, 76, 70, 125] ++ escapeNewlines t)) = true := by
        rw [crlfToken_eq]
        simp [List.isPrefixOf]
      rw [if_pos h2]
      have h3 : crlfToken.length - 1 = ([67, 82, 76, 70, 125] : Bytes).length := by decide
      rw [h3, replaceFrom_skip, ih ht]
      rfl
    · simp only [hb, if_false, List.singleton_append]
      unfold replaceFrom
      have h2 : ¬ crlfToken.isPrefixOf (b :: escapeNewlines t) = true := by
        intro h
        rw [List.isPrefixOf_iff_prefix, crlfToken_eq, List.cons_prefix_cons] at h
        have h5 := prefix_of_prefix_escape [67, 82, 76, 70, 125] (by decide) t h.2
        apply hfree
        rw [crlfToken_eq]
        exact List.IsPrefix.isInfix ((List.cons_prefix_cons).mpr ⟨h.1, h5⟩)
      rw [if_neg h2, ih ht]

theorem handleMessage_command {σ : Type} (run : Runner σ) (message : String) (c : Conn)
    (st : σ) (hping : TrimSpace message ≠ "PING") :
    handleMessage run message c st =
      ((c.write (responseFrame (processTask run message st).1.out)).1,
        (processTask run message st).2,
        (c.write (responseFrame (processTask run message st).1.out)).2) := by
  simp [handleMessage, hping, responseFrame, crlfToken]

theorem Conn.write_written (c : Conn) (p : Bytes) (hw : c.writable ≠ 0) :
    (c.write p).1.written = c.written ++ [p] ∧ (c.write p).2 = true := by
  unfold Conn.write
  cases h : c.writable with
  | zero => exact absurd h hw
  | succ n => simp

/-- C6. For a line that is not a PING, received on a connection that still accepts a
write, handleConn writes one payload, the response frame of the output `ret` of the
pipeline. For every byte sequence `ret` that frame is `ret` with every newline byte
replaced by the six bytes of the token, followed by one newline byte; it holds
exactly one newline byte, which is its last byte, and its length is
len(ret) + 5 * (number of newline bytes of ret) + 1. -/
theorem response_frame_shape :
    (∀ (σ : Type) (run : Runner σ) (message : String) (c : Conn) (st : σ),
      TrimSpace message ≠ "PING" → c.writable ≠ 0 →
      (handleMessage run message c st).1.written =
        c.written ++ [responseFrame (processTask run message st).1.out]) ∧
    (∀ ret : Bytes,
      responseFrame ret = escapeNewlines ret ++ [10] ∧
      crlfToken.length = 6 ∧
      (responseFrame ret).count 10 = 1 ∧
      (responseFrame ret).getLast? = some 10 ∧
      (responseFrame ret).length = ret.length + 5 * ret.count 10 + 1) := by
  constructor
  · intro σ run message c st hping hw
    rw [handleMessage_command run message c st hping]
    exact (Conn.write_written c _ hw).1
  · intro ret
    have hframe : responseFrame ret = escapeNewlines ret ++ [10] := by
      simp [responseFrame, bytesReplace_newline]
    refine ⟨hframe, by decide, ?_, ?_, ?_⟩
    · rw [hframe, List.count_append, escapeNewlines_count]
      rfl
    · rw [hframe]
      simp
    · rw [hframe, List.length_append, escapeNewlines_length]
      rfl

theorem response_frame_shape_witness :
    (handleMessage echoRun lineBothHooks ⟨[], [], 1⟩ ()).1.written =
      [] ++ [responseFrame (processTask echoRun lineBothHooks ()).1.out] :=
  response_frame_shape.1 Unit echoRun lineBothHooks ⟨[], [], 1⟩ () (by decide) (by decide)

/-- C7. Framing round trip. For every output that holds no occurrence of the six byte
token, replacing every occurrence of the token in its escaped form by a newline byte
gives the output back, so two token-free outputs with the same frame are equal. For
outputs that hold the token this fails: the distinct outputs `a\nb` and `a{CRLF}b`
have the same frame. -/
theorem framing_round_trip :
    (∀ x : Bytes, ¬ crlfToken <:+: x →
      bytesReplace (bytesReplace x [10] crlfToken) crlfToken [10] = x) ∧
    (∀ x y : Bytes, ¬ crlfToken <:+: x → ¬ crlfToken <:+: y →
      responseFrame x = responseFrame y → x = y) ∧
    (toBytes "a\nb" ≠ toBytes "a{CRLF}b" ∧
      responseFrame (toBytes "a\nb") = responseFrame (toBytes "a{CRLF}b")) := by
  refine ⟨?_, ?_, by decide⟩
  · intro x hx
    rw [bytesReplace_newline, unescape_escape x hx]
  · intro x y hx hy hxy
    have hesc : escapeNewlines x = escapeNewlines y := by
      simpa [responseFrame, bytesReplace_newline] using hxy
    rw [← unescape_escape x hx, ← unescape_escape y hy, hesc]

theorem framing_round_trip_witness :
    bytesReplace (bytesReplace (toBytes "a\nb\n") [10] crlfToken) crlfToken [10] =
      toBytes "a\nb\n" :=
  framing_round_trip.1 (toBytes "a\nb\n") (by decide)

/-! ## Theorems: the connection handler -/

/-- C5, as the claim states it, fails: the line `deploy now` is not a PING and does
not parse, and handleConn answers it with a payload of one byte, the newline. -/
theorem malformed_line_is_answered :
    TrimSpace "deploy now\n" ≠ "PING" ∧
    (jsonUnmarshal "deploy now\n").2 = some GoError.jsonSyntax ∧
    (handleMessage echoRun "deploy now\n" ⟨[], [], 1⟩ ()).1.written = [[10]] ∧
    (handleConn echoRun ⟨[toBytes "deploy now\n"], [], 1⟩ ()).1.written = [[10]] := by
  decide

/-- C5, amended. For every received line whose trimmed content is not PING and on
which json.Unmarshal returns an error, handleConn runs no command (the host state is
unchanged, the runner is not called) and makes exactly one write, of the single
newline byte, an empty response frame; the loop goes on if that write succeeds. -/
theorem malformed_line_gets_empty_frame {σ : Type} (run : Runner σ) (message : String)
    (c : Conn) (st : σ) (err : GoError)
    (hping : TrimSpace message ≠ "PING")
    (hparse : (jsonUnmarshal message).2 = some err) :
    handleMessage (traced run) message c (st, []) =
      ((c.write [10]).1, (st, []), (c.write [10]).2) ∧
    (c.writable ≠ 0 →
      (handleMessage (traced run) message c (st, [])).1.written = c.written ++ [[10]]) := by
  have h : handleMessage (traced run) message c (st, []) =
      ((c.write [10]).1, (st, []), (c.write [10]).2) := by
    rw [handleMessage_command _ message c _ hping]
    simp [processTask, hparse, responseFrame, bytesReplace, replaceFrom]
  refine ⟨h, fun hw => ?_⟩
  rw [h]
  exact (Conn.write_written c _ hw).1

theorem malformed_line_gets_empty_frame_witness :
    (handleMessage (traced echoRun) "deploy now\n" ⟨[], [], 1⟩ ((), [])).1.written =
      [] ++ [[10]] :=
  (malformed_line_gets_empty_frame echoRun "deploy now\n" ⟨[], [], 1⟩ () GoError.jsonSyntax
    (by decide) (by decide)).2 (by decide)

/-- C10 at its failing input. Two lines `PING` that arrive in one socket read: the
reader made for the first line takes both lines off the connection and returns the
first; the second is lost with that reader, so one PONG is written. The same two
lines arriving in two reads are both answered. -/
theorem handleConn_loses_buffered_line :
    readStringFresh 10 ⟨[toBytes "PING\nPING\n"], [], 2⟩ =
      (some (toBytes "PING\n"), ⟨[], [], 2⟩) ∧
    (handleConn echoRun ⟨[toBytes "PING\nPING\n"], [], 2⟩ ()).1.written = [toBytes "PONG\n"] ∧
    (handleConn echoRun ⟨[toBytes "PING\n", toBytes "PING\n"], [], 2⟩ ()).1.written =
      [toBytes "PONG\n", toBytes "PONG\n"] := by
  decide

/-! ## Theorems: the liveness registry -/

theorem setNodesOnline_getElem? (addr : String) (online : Bool) (nodes : List Node) (j : Nat) :
    (setNodesOnline addr online nodes)[j]? =
      (nodes[j]?).map (fun node =>
        ⟨node.Addr, if node.Addr = addr then online else node.Online⟩) := by
  induction nodes generalizing j with
  | nil => simp [setNodesOnline]
  | cons node rest ih =>
    unfold setNodesOnline
    cases j with
    | zero => by_cases h : node.Addr = addr <;> simp [h]
    | succ j => by_cases h : node.Addr = addr <;> simp [h, ih]

theorem setNodesOnline_length (addr : String) (online : Bool) (nodes : List Node) :
    (setNodesOnline addr online nodes).length = nodes.length := by
  induction nodes with
  | nil => rfl
  | cons node rest ih => unfold setNodesOnline; split <;> simp [ih]

theorem setClientOnlineStatus_getElem? (addr : String) (online : Bool) (apps : Apps) (i : Nat) :
    (setClientOnlineStatus addr online apps)[i]? =
      (apps[i]?).map (fun entry =>
        (entry.1, ⟨entry.2.Type_, entry.2.Path, setNodesOnline addr online entry.2.Node⟩)) := by
  induction apps generalizing i with
  | nil => simp [setClientOnlineStatus]
  | cons entry rest ih =>
    obtain ⟨key, app⟩ := entry
    unfold setClientOnlineStatus
    cases i with
    | zero => simp
    | succ i => simp [ih]

theorem setClientOnlineStatus_length (addr : String) (online : Bool) (apps : Apps) :
    (setClientOnlineStatus addr online apps).length = apps.length := by
  induction apps with
  | nil => rfl
  | cons entry rest ih =>
    obtain ⟨key, app⟩ := entry
    simp [setClientOnlineStatus, ih]

/-- C9. After setClientOnlineStatus(a, b) the table has the same applications under
the same names in the same places, each with its type and path and with as many
nodes as before; the node at each place keeps its address, and it is online = b if
its address is a, and keeps its previous online value otherwise. -/
theorem setClientOnlineStatus_effect (a : String) (b : Bool) (apps : Apps) :
    (setClientOnlineStatus a b apps).length = apps.length ∧
    (setClientOnlineStatus a b apps).map Prod.fst = apps.map Prod.fst ∧
    ∀ (i : Nat) (key : String) (app : App), apps[i]? = some (key, app) →
      ∃ app2 : App, (setClientOnlineStatus a b apps)[i]? = some (key, app2) ∧
        app2.Type_ = app.Type_ ∧ app2.Path = app.Path ∧
        app2.Node.length = app.Node.length ∧
        app2.Node.map Node.Addr = app.Node.map Node.Addr ∧
        ∀ (j : Nat) (node : Node), app.Node[j]? = some node →
          ∃ node2 : Node, app2.Node[j]? = some node2 ∧ node2.Addr = node.Addr ∧
            (node.Addr = a → node2.Online = b) ∧
            (node.Addr ≠ a → node2.Online = node.Online) := by
  refine ⟨setClientOnlineStatus_length a b apps, ?_, ?_⟩
  · apply List.ext_getElem?
    intro i
    simp only [List.getElem?_map, setClientOnlineStatus_getElem?]
    cases apps[i]? <;> simp
  · intro i key app hi
    refine ⟨⟨app.Type_, app.Path, setNodesOnline a b app.Node⟩, ?_, rfl, rfl,
      setNodesOnline_length a b app.Node, ?_, ?_⟩
    · simp [setClientOnlineStatus_getElem?, hi]
    · apply List.ext_getElem?
      intro j
      simp only [List.getElem?_map, setNodesOnline_getElem?]
      cases app.Node[j]? <;> simp
    · intro j node hj
      refine ⟨⟨node.Addr, if node.Addr = a then b else node.Online⟩, ?_, rfl, ?_, ?_⟩
      · simp [setNodesOnline_getElem?, hj]
      · intro h
        simp [h]
      · intro h
        simp [h]

theorem setClientOnlineStatus_effect_witness :
    ∃ app2 : App, (setClientOnlineStatus "10.0.0.1:8081" true sampleApps)[1]? =
        some ("api", app2) ∧
      app2.Type_ = "svn" ∧ app2.Path = "/srv/api" ∧ app2.Node.length = 1 ∧
      app2.Node.map Node.Addr = ["10.0.0.1:8081"] ∧
      ∀ (j : Nat) (node : Node),
        [(⟨"10.0.0.1:8081", false⟩ : Node)][j]? = some node →
        ∃ node2 : Node, app2.Node[j]? = some node2 ∧ node2.Addr = node.Addr ∧
          (node.Addr = "10.0.0.1:8081" → node2.Online = true) ∧
          (node.Addr ≠ "10.0.0.1:8081" → node2.Online = node.Online) :=
  (setClientOnlineStatus_effect "10.0.0.1:8081" true sampleApps).2.2 1 "api"
    ⟨"svn", "/srv/api", [⟨"10.0.0.1:8081", false⟩]⟩ (by decide)

/-! ## Theorems: the request keys -/

theorem Message.get_set_self (m : Message) (f : Field) (s : String) : (m.set f s).get f = s := by
  cases f <;> rfl

theorem Message.get_set_other (m : Message) (f g : Field) (s : String) (h : f ≠ g) :
    (m.set g s).get f = m.get f := by
  cases f <;> cases g <;> first | rfl | exact absurd rfl h

theorem storeMember_get_other (acc : Message × Option GoError) (member : String × Json)
    (f : Field) (h : lookupField member.1 ≠ some f) :
    (storeMember acc member).1.get f = acc.1.get f := by
  unfold storeMember
  cases hl : lookupField member.1 with
  | none => rfl
  | some g =>
    have hfg : f ≠ g := fun e => h (by rw [hl, e])
    cases member.2 <;> simp [Message.get_set_other _ _ _ _ hfg]

theorem foldl_storeMember_get_other (members : List (String × Json)) (f : Field)
    (h : ∀ m ∈ members, lookupField m.1 ≠ some f) :
    ∀ acc : Message × Option GoError,
      (members.foldl storeMember acc).1.get f = acc.1.get f := by
  induction members with
  | nil => intro acc; rfl
  | cons m rest ih =>
    intro acc
    rw [List.foldl_cons, ih (fun x hx => h x (List.mem_cons_of_mem _ hx)),
      storeMember_get_other _ _ _ (h m (List.mem_cons_self _ _))]

theorem foldl_storeMember_get (members : List (String × Json)) (f : Field) (key s : String)
    (hkey : lookupField key = some f)
    (hmem : (key, Json.str s) ∈ members)
    (huniq : (members.filterMap (fun m => lookupField m.1)).Nodup) :
    ∀ acc : Message × Option GoError, (members.foldl storeMember acc).1.get f = s := by
  induction members with
  | nil => simp at hmem
  | cons m rest ih =>
    intro acc
    rw [List.foldl_cons]
    rcases List.mem_cons.mp hmem with hm | hm
    · subst hm
      have hrest : ∀ x ∈ rest, lookupField x.1 ≠ some f := by
        intro x hx hxf
        simp only [List.filterMap_cons, hkey, List.nodup_cons, List.mem_filterMap] at huniq
        exact huniq.1 ⟨x, hx, hxf⟩
      rw [foldl_storeMember_get_other rest f hrest]
      simp [storeMember, hkey, Message.get_set_self]
    · apply ih hm
      cases hl : lookupField m.1 with
      | none => simpa [List.filterMap_cons, hl] using huniq
      | some g =>
        simp only [List.filterMap_cons, hl, List.nodup_cons] at huniq
        exact huniq.2

theorem foldl_storeMember_no_error (members : List (String × Json))
    (hstr : ∀ m ∈ members, lookupField m.1 ≠ none → ∃ s, m.2 = Json.str s) :
    ∀ acc : Message × Option GoError, acc.2 = none →
      (members.foldl storeMember acc).2 = none := by
  induction members with
  | nil => intro acc h; exact h
  | cons m rest ih =>
    intro acc h
    rw [List.foldl_cons]
    apply ih (fun x hx => hstr x (List.mem_cons_of_mem _ hx))
    unfold storeMember
    cases hl : lookupField m.1 with
    | none => exact h
    | some g =>
      obtain ⟨s, hs⟩ := hstr m (List.mem_cons_self _ _) (by simp [hl])
      simp [hs, h]

/-- C8, as the claim states it, fails: the line lineSpecKey is an object with the
action update and the non-blank string `echo pre` under the key before_deploy, and
the agent runs the primary command and the after hook only. -/
theorem spec_key_before_deploy_is_ignored :
    (parseJson lineSpecKey).bind (Json.stringUnder "before_deploy") = some "echo pre" ∧
    (parseJson lineSpecKey).bind (Json.stringUnder "action") = some "update" ∧
    TrimSpace "echo pre" ≠ "" ∧
    processTask (traced echoRun) lineSpecKey ((), []) =
      (⟨toBytes "<cd /srv/app && git pull>\n<echo done>\n", none⟩,
        ((), ["cd /srv/app && git pull", "echo done"])) := by
  decide

/-- C8, amended: the key of the before hook is befor_deploy. For every request line
that is a JSON object in which the members naming a field of Message hold strings and
no field is named twice, with action update or rollback and a non-blank string under
the key befor_deploy: the line decodes, the first command the agent runs is that
string, and if it succeeds the second is the primary command; and a non-blank string
under after_deploy is run third, after the hook and the primary command succeeded. -/
theorem request_hooks_are_run {σ : Type} (run : Runner σ) (message : String)
    (members : List (String × Json)) (st : σ) (action hook : String)
    (hparse : parseJson message = some (Json.obj members))
    (hstr : ∀ m ∈ members, lookupField m.1 ≠ none → ∃ s, m.2 = Json.str s)
    (huniq : (members.filterMap (fun m => lookupField m.1)).Nodup)
    (hact : ("action", Json.str action) ∈ members)
    (hvalid : action = "update" ∨ action = "rollback")
    (hhook : ("befor_deploy", Json.str hook) ∈ members)
    (hnonblank : TrimSpace hook ≠ "") :
    ∃ msg : Message, jsonUnmarshal message = (msg, none) ∧
      msg.Action = action ∧ msg.BeforDeploy = hook ∧
      (processTask (traced run) message (st, [])).2.2.head? = some hook ∧
      ((run hook st).1.err = none →
        (processTask (traced run) message (st, [])).2.2[1]? = some (buildCommand msg)) ∧
      (∀ after : String, ("after_deploy", Json.str after) ∈ members →
        TrimSpace after ≠ "" →
        (run hook st).1.err = none →
        (run (buildCommand msg) (run hook st).2).1.err = none →
        (processTask (traced run) message (st, [])).2.2 = [hook, buildCommand msg, after]) := by
  have hdec : jsonUnmarshal message =
      ((members.foldl storeMember (Message.zero, none)).1, none) := by
    have h := foldl_storeMember_no_error members hstr (Message.zero, none) rfl
    simp only [jsonUnmarshal, hparse, storeValue]
    exact Prod.ext rfl h
  have hA := foldl_storeMember_get members Field.action "action" action (by decide) hact huniq
    (Message.zero, none)
  have hB := foldl_storeMember_get members Field.beforDeploy "befor_deploy" hook (by decide)
    hhook huniq (Message.zero, none)
  have hC := fun (after : String) (h : ("after_deploy", Json.str after) ∈ members) =>
    foldl_storeMember_get members Field.afterDeploy "after_deploy" after (by decide) h huniq
      (Message.zero, none)
  generalize (members.foldl storeMember (Message.zero, none)).1 = msg at hdec hA hB hC
  have hA2 : msg.Action = action := hA
  have hB2 : msg.BeforDeploy = hook := hB
  have hne := buildCommand_ne_empty msg (hA2 ▸ hvalid)
  have hnb : TrimSpace msg.BeforDeploy ≠ "" := hB2 ▸ hnonblank
  refine ⟨msg, hdec, hA2, hB2, ?_, ?_, ?_⟩
  · rw [processTask_of_decoded _ _ _ _ hdec]
    simp only [processMessage, hne, hnb, ne_eq, not_false_eq_true, if_true, traced,
      runCommandAndAfter, hB2]
    repeat' split
    all_goals simp
  · intro hok
    rw [processTask_of_decoded _ _ _ _ hdec]
    simp only [processMessage, hne, hnb, ne_eq, not_false_eq_true, if_true, traced,
      runCommandAndAfter, hB2, hok]
    repeat' split
    all_goals simp
  · intro after hafter hablank hok hok2
    have hC2 : msg.AfterDeploy = after := hC after hafter
    have hab : TrimSpace msg.AfterDeploy ≠ "" := hC2 ▸ hablank
    rw [processTask_of_decoded _ _ _ _ hdec]
    simp only [processMessage, hne, hnb, hab, ne_eq, not_false_eq_true, if_true, traced,
      runCommandAndAfter, hB2, hC2, hok, hok2]
    repeat' split
    all_goals simp

theorem request_hooks_are_run_witness :
    (processTask (traced echoRun) lineBothHooks ((), [])).2.2 =
      ["echo pre", "cd /srv/app && git pull", "echo done"] := by
  obtain ⟨msg, hdec, _, _, _, _, h⟩ :=
    request_hooks_are_run echoRun lineBothHooks membersBothHooks () "update" "echo pre"
      rfl
      (by
        intro m hm _
        simp only [membersBothHooks, List.mem_cons, List.mem_singleton, List.not_mem_nil,
          or_false] at hm
        rcases hm with rfl | rfl | rfl | rfl | rfl <;> exact ⟨_, rfl⟩)
      (by decide) (by simp [membersBothHooks]) (Or.inl rfl) (by simp [membersBothHooks])
      (by decide)
  have hm : jsonUnmarshal lineBothHooks =
      (⟨"git", "/srv/app", "update", "", "echo pre", "echo done"⟩, none) := by decide
  rw [hm] at hdec
  obtain ⟨rfl, -⟩ := Prod.mk.inj hdec
  exact h "echo done" (by simp [membersBothHooks]) (by decide) (by decide) (by decide)

end GoDeploy
